import Mathlib

/-!
# Verification of the vscode-jshint configuration/exclusion resolver

This development embeds the resolution logic of
`jshint-server/src/server.ts` (the `OptionsResolver` and `FileMatcher`
classes together with their helper functions `locateFile`,
`stripComments`, `readJsonFile`, `readJSHintFile` and `readOptions`) and
proves properties about it.

Modelling conventions:
* JSON values are represented by the mutual inductive `JValue` / `JArr` /
  `JObj`.  Object fields are kept in insertion order, as JavaScript does.
  JSON numbers are modelled as integers (the claims under study only use
  integer literals; floating-point behaviour is irrelevant to them).
* The filesystem, the user home directory and the results of external
  library calls (`JSON.parse`, `parse-gitignore`) are supplied as explicit
  environments, so the stateful TypeScript methods become pure functions
  from an environment and a state to a result and a new state.
* Calls to `connection.window.showErrorMessage` (the diagnostic side
  channel) are modelled by accumulating a list of structured `Msg` values;
  each constructor records exactly the data interpolated into the
  corresponding template string in the source.
* The unbounded recursions of the source (`readJSHintFile` on `extends`
  chains, the upward `locateFile` walk, the regex scan of `stripComments`,
  minimatch's backtracking) are given explicit fuel so that every
  definition is executable and kernel-reducible.  The source can diverge
  on cyclic `extends` chains; theorems about `readJSHintFile` therefore
  quantify over (or fix) a sufficient fuel.
-/

/-! ## JSON values

`JValue` models the values produced by `JSON.parse`: `null`, booleans,
numbers, strings, arrays and objects.  Arrays and object field lists are
given as mutual inductives (`JArr`, `JObj`) rather than `List` so that all
operations are structurally recursive and compute inside the kernel. -/

mutual

inductive JValue where
  | null : JValue
  | bool (b : Bool) : JValue
  | num (n : Int) : JValue
  | str (s : String) : JValue
  | arr (elems : JArr) : JValue
  | obj (fields : JObj) : JValue

inductive JArr where
  | nil : JArr
  | cons (hd : JValue) (tl : JArr) : JArr

inductive JObj where
  | nil : JObj
  | cons (key : String) (val : JValue) (tl : JObj) : JObj

end

/-- JavaScript truthiness of a JSON value: `null`, `false`, `0` and `""`
are falsy; every object and array (even empty) is truthy. -/
def jsTruthy : JValue → Bool
  | .null => false
  | .bool b => b
  | .num n => n != 0
  | .str s => s != ""
  | .arr _ => true
  | .obj _ => true

/-- First binding of key `k` in an object field list (JavaScript property
lookup; `JSON.parse` never produces duplicate keys). -/
def findO (k : String) : JObj → Option JValue
  | .nil => none
  | .cons k' v tl => if k' = k then some v else findO k tl

/-- `delete o[k]`: remove the binding(s) of `k`. -/
def removeO (k : String) : JObj → JObj
  | .nil => .nil
  | .cons k' v tl => if k' = k then removeO k tl else .cons k' v (removeO k tl)

/-- Concatenation of object field lists. -/
def appendO : JObj → JObj → JObj
  | .nil, r => r
  | .cons k v tl, r => .cons k v (appendO tl r)

/-- Concatenation of JSON arrays (`Array.prototype.concat` on two
arrays). -/
def appendA : JArr → JArr → JArr
  | .nil, r => r
  | .cons v tl, r => .cons v (appendA tl r)

/-- The entries of `cf` whose key has no binding in `bf` (the properties
`_.mergeWith` appends to the destination object), in order. -/
def filterNotIn : JObj → JObj → JObj
  | .nil, _ => .nil
  | .cons k v tl, bf =>
    if (findO k bf).isSome then filterNotIn tl bf
    else .cons k v (filterNotIn tl bf)

/-! ## The merge of `readJSHintFile`

The source merges a parsed parent (`baseValue`) with the child
(`contentValue`) using

```
_.mergeWith(readJSHintFile(baseFile, file), content, (baseValue, contentValue) => {
  if (_.isArray(baseValue)) {
    return baseValue.concat(contentValue);
  }
});
```

i.e. lodash's recursive merge with a customizer that concatenates whenever
the destination value is an array.  `mergeVal b c` gives the merged value
for a key present in both objects: arrays are concatenated (a non-array
source is appended as a single element, as `concat` does), two plain
objects are merged recursively (destination keys keep their order and are
updated; fresh source keys are appended), and in every other case the
source value wins. -/

mutual

def mergeVal : JValue → JValue → JValue
  | .arr xs, .arr ys => .arr (appendA xs ys)
  | .arr xs, v => .arr (appendA xs (.cons v .nil))
  | .obj bf, .obj cf => .obj (appendO (mergeBase bf cf) (filterNotIn cf bf))
  | _, v => v

def mergeBase : JObj → JObj → JObj
  | .nil, _ => .nil
  | .cons k v tl, cf =>
    .cons k
      (match findO k cf with
        | some w => mergeVal v w
        | none => v)
      (mergeBase tl cf)

end

/-- Merge of two object field lists, destination first (see `mergeVal`). -/
def mergeObj (bf cf : JObj) : JObj :=
  appendO (mergeBase bf cf) (filterNotIn cf bf)

theorem mergeVal_obj (bf cf : JObj) :
    mergeVal (.obj bf) (.obj cf) = .obj (mergeObj bf cf) := rfl

theorem mergeVal_arr (xs ys : JArr) :
    mergeVal (.arr xs) (.arr ys) = .arr (appendA xs ys) := rfl

/-! ## Association lists

`{ [key: string]: T }` caches are modelled as association lists; property
assignment replaces an existing binding in place. -/

def lookupAssoc {α : Type} (k : String) : List (String × α) → Option α
  | [] => none
  | (k', v) :: tl => if k' = k then some v else lookupAssoc k tl

def insertAssoc {α : Type} (k : String) (v : α) : List (String × α) → List (String × α)
  | [] => [(k, v)]
  | (k', v') :: tl =>
    if k' = k then (k', v) :: tl else (k', v') :: insertAssoc k v tl

/-! ## POSIX path model

The source uses Node's `path.dirname`, `path.join` and `path.resolve`.
These are external library functions; they are modelled here for POSIX
paths (the separator handling of `relativeTo`/`folderOf` in the source is
hard-coded to `/` as well). -/

/-- Node `path.posix.dirname`: scan from the end, skip trailing slashes,
skip the last name, and cut just before the separator found there.  The
loop of the original never inspects index 0, giving the `/` and `.`
fall-backs. -/
def pathDirname (p : String) : String :=
  let cs := p.data
  if cs.isEmpty then "." else
    let hasRoot := cs.head? = some '/'
    let rev2 := (cs.reverse.dropWhile (fun c => c = '/')).dropWhile (fun c => c ≠ '/')
    if rev2.length ≤ 1 then (if hasRoot then "/" else ".")
    else if hasRoot ∧ rev2.length = 2 then "//"
    else ⟨cs.take (rev2.length - 1)⟩

/-- Split a character list on `/` (the `path.split('/')` of Node's
normalization; written out structurally so that it computes inside the
kernel, which `String.splitOn` does not). -/
def splitOnSlash : List Char → List (List Char)
  | [] => [[]]
  | x :: rest =>
    match splitOnSlash rest with
    | [] => [[]]
    | hd :: tl => if x = '/' then [] :: hd :: tl else (x :: hd) :: tl

/-- The `/`-separated segments of a string. -/
def slashSegs (s : String) : List String :=
  (splitOnSlash s.data).map fun l => ⟨l⟩

/-- Join segments with `/` separators. -/
def joinSegs : List String → String
  | [] => ""
  | [s] => s
  | s :: rest => s ++ "/" ++ joinSegs rest

/-- One step of Node path normalization over the list of `/`-separated
segments: empty segments and `.` disappear, `..` pops the last real
segment (and is kept, resp. dropped, at the start of a relative,
resp. absolute, path). `acc` holds processed segments in reverse. -/
def normSegs (isAbs : Bool) : List String → List String → List String
  | acc, [] => acc.reverse
  | acc, s :: rest =>
    if s = "" ∨ s = "." then normSegs isAbs acc rest
    else if s = ".." then
      match acc with
      | t :: acc' =>
        if t = ".." then normSegs isAbs (".." :: t :: acc') rest
        else normSegs isAbs acc' rest
      | [] => if isAbs then normSegs isAbs [] rest else normSegs isAbs [".."] rest
    else normSegs isAbs (s :: acc) rest

/-- Node `path.posix.normalize` (trailing-slash preservation omitted; no
caller of the model depends on it). -/
def pathNormalize (p : String) : String :=
  let isAbs := p.data.head? = some '/'
  let segs := normSegs isAbs [] (slashSegs p)
  let joined := joinSegs segs
  if joined = "" then (if isAbs then "/" else ".")
  else if isAbs then "/" ++ joined else joined

/-- Node `path.posix.join` on two non-empty parts. -/
def pathJoin (a b : String) : String :=
  pathNormalize (a ++ "/" ++ b)

/-- Node `path.posix.resolve from to` for the case used by the source
(`from` is the absolute directory of a config file): an absolute `to`
stands alone, otherwise it is appended to `from` and normalized. -/
def pathResolve (base p : String) : String :=
  if p.data.head? = some '/' then pathNormalize p
  else pathNormalize (base ++ "/" ++ p)

/-! ## `locateFile`

```
function locateFile(directory: string, fileName: string) {
  let parent = directory;
  do {
    directory = parent;
    let location = path.join(directory, fileName);
    if (fs.existsSync(location)) {
      return location;
    }
    parent = path.dirname(directory);
  } while (parent !== directory);
  return undefined;
};
```

The do/while loop walks upward until the parent of the current directory
equals the directory itself.  Existence checks are abstracted into the
predicate `ex`.  The loop is bounded by fuel; since `pathDirname` never
lengthens a path (except `"" ↦ "."`), `directory.length + 2` iterations
always suffice, and the callers below instantiate the fuel this way. -/
def locateFile (ex : String → Bool) : Nat → String → String → Option String
  | 0, _, _ => none
  | fuel + 1, directory, fileName =>
    let location := pathJoin directory fileName
    if ex location then some location
    else
      let parent := pathDirname directory
      if parent = directory then none
      else locateFile ex fuel parent fileName

/-! ## `stripComments`

```
var regexp: RegExp =
  /("(?:[^\\\"]*(?:\\.)?)*")|('(?:[^\\\']*(?:\\.)?)*')|(\/\*(?:\r?\n|.)*?\*\/)|(\/{2,}.*?(?:(?:\r?\n)|$))/g;
let result = content.replace(regexp, (match, m1, m2, m3, m4) => { ... });
```

A global `replace` repeatedly finds the leftmost match and, since no
alternative can match the empty string, advances past it; positions where
no alternative matches are copied through.  The four alternatives start
with `"`, `'`, `/*` and `//` respectively, so at each position at most one
applies.  The scanners below reproduce each alternative:

* `dqSpan` / `sqSpan`: a quoted string `"(?:[^\\"]*(?:\\.)?)*"` runs to
  the first unescaped closing quote; `\\.` consumes an escaped pair, but
  since `.` excludes JavaScript line terminators, a backslash followed by
  a line terminator (or end of input) makes the whole alternative fail.
  A matched string is returned unchanged by the replacer.
* `blockSpan`: `\/\*(?:\r?\n|.)*?\*\/` runs lazily to the first `*/`;
  its body consumes `\r\n`, `\n` and any non-line-terminator character,
  so a bare `\r` (or a lone U+2028/U+2029) before the first `*/` makes the
  alternative fail.  A matched block comment is replaced by `""`.
* `lineSpan`: `\/{2,}.*?(?:(?:\r?\n)|$)` runs to the first newline or end
  of input; a bare `\r` makes it fail.  The replacer keeps the terminator
  (`\n` or `\r\n`) and drops everything else.

When an alternative fails at a position, the engine moves one character
forward, which the `none` branches of `scanStrip` reproduce.  `scanStrip`
consumes at least one character per step, so fuel `length` suffices. -/

/-- Is `c` a JavaScript line terminator (not matched by `.`)? -/
def jsLineTerm (c : Char) : Bool :=
  c = '\n' ∨ c = '\r' ∨ c = '\u2028' ∨ c = '\u2029'

/-- Double-quoted string alternative, after the opening quote: returns the
matched characters (closing quote included) and the rest, or `none` when
the alternative fails. -/
def dqSpan : List Char → Option (List Char × List Char)
  | [] => none
  | '"' :: r => some (['"'], r)
  | '\\' :: [] => none
  | '\\' :: c :: r =>
    if jsLineTerm c then none
    else (dqSpan r).map fun p => ('\\' :: c :: p.1, p.2)
  | c :: r => (dqSpan r).map fun p => (c :: p.1, p.2)

/-- Single-quoted string alternative, after the opening quote. -/
def sqSpan : List Char → Option (List Char × List Char)
  | [] => none
  | '\'' :: r => some (['\''], r)
  | '\\' :: [] => none
  | '\\' :: c :: r =>
    if jsLineTerm c then none
    else (sqSpan r).map fun p => ('\\' :: c :: p.1, p.2)
  | c :: r => (sqSpan r).map fun p => (c :: p.1, p.2)

/-- Block-comment alternative, after the opening `/*`: the rest after the
closing `*/`, or `none` when the alternative fails. -/
def blockSpan : List Char → Option (List Char)
  | [] => none
  | '*' :: '/' :: r => some r
  | '\r' :: '\n' :: r => blockSpan r
  | '\n' :: r => blockSpan r
  | c :: r => if jsLineTerm c then none else blockSpan r

/-- Line-comment alternative, after the leading `//`: the kept terminator
and the rest, or `none` when the alternative fails.  The replacer keeps
`\n` (resp. `\r\n`) exactly when the match ends in a newline, and replaces
a comment closed by the end of input with `""`. -/
def lineSpan : List Char → Option (List Char × List Char)
  | [] => some ([], [])
  | '\r' :: '\n' :: r => some (['\r', '\n'], r)
  | '\n' :: r => some (['\n'], r)
  | c :: r => if jsLineTerm c then none else lineSpan r

/-- The global replace: scan left to right, handling the four alternatives
at the positions where they can start and copying every other character. -/
def scanStrip : Nat → List Char → List Char
  | 0, l => l
  | _ + 1, [] => []
  | fuel + 1, '"' :: rest =>
    match dqSpan rest with
    | some (body, r) => '"' :: (body ++ scanStrip fuel r)
    | none => '"' :: scanStrip fuel rest
  | fuel + 1, '\'' :: rest =>
    match sqSpan rest with
    | some (body, r) => '\'' :: (body ++ scanStrip fuel r)
    | none => '\'' :: scanStrip fuel rest
  | fuel + 1, '/' :: '*' :: rest =>
    match blockSpan rest with
    | some r => scanStrip fuel r
    | none => '/' :: scanStrip fuel ('*' :: rest)
  | fuel + 1, '/' :: '/' :: rest =>
    match lineSpan rest with
    | some (term, r) => term ++ scanStrip fuel r
    | none => '/' :: scanStrip fuel ('/' :: rest)
  | fuel + 1, c :: rest => c :: scanStrip fuel rest

/-- `stripComments` of the source: one global regex replace. -/
def stripComments (content : String) : String :=
  ⟨scanStrip content.data.length content.data⟩

/-! ## The options resolver

Side-channel messages.  The source sends strings through
`connection.window.showErrorMessage`; the two templates are

* `` `Can't load JSHint configuration from file ${location}. Please check
  the file for syntax errors.` `` where `location` is
  `` `${file} extended from ${extendedFrom}` `` when `extendedFrom` is
  present and `file` otherwise (in `readJsonFile`), and
* `` `Can't find JSHint file ${baseFile} extended from ${file}` `` (in
  `readJSHintFile`).

Each constructor of `Msg` records exactly the data interpolated into one
template, so a message names the files the corresponding string names. -/
inductive Msg where
  | cantLoad (file : String) (extendedFrom : Option String) : Msg
  | cantFind (baseFile : String) (file : String) : Msg
deriving DecidableEq, Repr

/-- Environment of `OptionsResolver`: `files path` is `none` when
`fs.existsSync path` is false; otherwise it carries the outcome of
`JSON.parse(stripComments(fs.readFileSync(path).toString()))` — `.error ()`
when the parse throws, `.ok v` when it yields `v`.  (`stripComments` and
the parse are composed into the environment because the resolver only ever
observes their composite result; `stripComments` itself is verified
separately above.)  `home` is `process.env['HOME']`
(resp. `'USERPROFILE'`), `none` when unset. -/
structure OptionsEnv where
  files : String → Option (Except Unit JValue)
  home : Option String

/-- `fs.existsSync` under an `OptionsEnv`. -/
def existsF (env : OptionsEnv) (p : String) : Bool :=
  (env.files p).isSome

/--
```
function readJsonFile(file: string, extendedFrom?: string): any {
  try {
    return JSON.parse(stripComments(fs.readFileSync(file).toString()));
  }
  catch (err) {
    let location = extendedFrom ? `${file} extended from ${extendedFrom}` : file;
    that.connection.window.showErrorMessage(`Can't load JSHint configuration from file ${location}. ...`);
    return {};
  }
}
```
A missing file (read throws) and a parse failure both land in the catch:
one message, result `{}`. -/
def readJsonFile (env : OptionsEnv) (file : String) (extendedFrom : Option String) :
    JValue × List Msg :=
  match env.files file with
  | some (.ok v) => (v, [])
  | some (.error _) => (.obj .nil, [.cantLoad file extendedFrom])
  | none => (.obj .nil, [.cantLoad file extendedFrom])

/-- The `content.extends` truthiness test of `readJSHintFile`, returning
the extends path when the branch is taken.  `content.extends` is `undefined`
unless `content` is an object with that property, and the branch runs only
when the value is truthy.  The model restricts the taken branch to string
values: for a truthy non-string `extends` the original would throw a
`TypeError` inside `path.resolve`, a behaviour outside the JSON-typed
domain modelled here. -/
def getExtTruthy : JValue → Option String
  | .obj fs =>
    match findO "extends" fs with
    | some (.str s) => if s = "" then none else some s
    | _ => none
  | _ => none

/-- `delete content.extends` (a no-op on non-objects, as in sloppy-mode
JavaScript). -/
def removeExt : JValue → JValue
  | .obj fs => .obj (removeO "extends" fs)
  | v => v

/--
```
function readJSHintFile(file: string, extendedFrom?: string): any {
  let content = readJsonFile(file, extendedFrom);
  if (content.extends) {
    let baseFile = path.resolve(path.dirname(file), content.extends);
    if (fs.existsSync(baseFile)) {
      content = _.mergeWith(readJSHintFile(baseFile, file), content, (baseValue, contentValue) => {
        if (_.isArray(baseValue)) {
          return baseValue.concat(contentValue);
        }
      });
    } else {
      that.connection.window.showErrorMessage(`Can't find JSHint file ${baseFile} extended from ${file}`);
    }
    delete content.extends;
  }
  return content;
}
```
The recursion on the parent file is bounded by fuel (the source has no
cycle guard and can diverge; exhausted fuel yields an empty object and no
messages, a case no theorem below relies on). -/
def readJSHintFile (env : OptionsEnv) : Nat → String → Option String → JValue × List Msg
  | 0, _, _ => (.obj .nil, [])
  | fuel + 1, file, extendedFrom =>
    let c := readJsonFile env file extendedFrom
    match getExtTruthy c.1 with
    | some ext =>
      let baseFile := pathResolve (pathDirname file) ext
      if existsF env baseFile then
        let b := readJSHintFile env fuel baseFile (some file)
        (removeExt (mergeVal b.1 c.1), c.2 ++ b.2)
      else
        (removeExt c.1, c.2 ++ [.cantFind baseFile file])
    | none => c

/-- State of an `OptionsResolver` instance.  The constructor runs
`clear()` and then nulls both fields, i.e. produces
`⟨none, none, []⟩`. -/
structure OptionsResolverState where
  configPath : Option String
  jshintOptions : Option JValue
  optionsCache : List (String × Option JValue)

namespace OptionsResolver

/-- `new OptionsResolver(connection)`. -/
def init : OptionsResolverState := ⟨none, none, []⟩

/--
```
public configure(path: string, jshintOptions?: JSHintOptions) {
  this.optionsCache = Object.create(null);
  this.configPath = path;
  this.jshintOptions = jshintOptions;
}
``` -/
def configure (path : Option String) (jshintOptions : Option JValue)
    (_st : OptionsResolverState) : OptionsResolverState :=
  ⟨path, jshintOptions, []⟩

/--
```
public clear(jshintOptions?: JSHintOptions) {
  this.optionsCache = Object.create(null);
}
```
The argument is unused by the body. -/
def clear (_jshintOptions : Option JValue) (st : OptionsResolverState) :
    OptionsResolverState :=
  { st with optionsCache := [] }

/-- The guard `this.configPath && fs.existsSync(this.configPath)`
(a string is truthy when non-empty), yielding the path when it holds. -/
def configActive (env : OptionsEnv) : Option String → Option String
  | some cp => if cp ≠ "" ∧ existsF env cp then some cp else none
  | none => none

/-- The guard `jshintOptions && jshintOptions.config &&
fs.existsSync(jshintOptions.config)`, yielding the legacy config path when
it holds.  As with `extends`, a truthy non-string `config` would make the
original throw inside `fs.existsSync`; the model takes only string
values. -/
def legacyConfigActive (env : OptionsEnv) : Option JValue → Option String
  | some v =>
    if jsTruthy v then
      match v with
      | .obj fs =>
        match findO "config" fs with
        | some (.str c) => if c ≠ "" ∧ existsF env c then some c else none
        | _ => none
      | _ => none
    else none
  | none => none

/-- The `content.jshintConfig` truthiness test of `readOptions`. -/
def jshintConfigTruthy : JValue → Option JValue
  | .obj fs =>
    match findO "jshintConfig" fs with
    | some v => if jsTruthy v then some v else none
    | _ => none
  | _ => none

/--
```
private readOptions(fsPath: string = null): any {
  ...
  if (this.configPath && fs.existsSync(this.configPath)) {
    return readJsonFile(this.configPath);
  }
  let jshintOptions = this.jshintOptions;
  if (jshintOptions && jshintOptions.config && fs.existsSync(jshintOptions.config)) {
    return readJsonFile(jshintOptions.config);
  }
  if (fsPath) {
    let packageFile = locateFile(fsPath, 'package.json');
    if (packageFile) {
      let content = readJsonFile(packageFile);
      if (content.jshintConfig) {
        return content.jshintConfig;
      }
    }
    let configFile = locateFile(fsPath, JSHINTRC);
    if (configFile) {
      return readJSHintFile(configFile);
    }
  }
  let home = getUserHome();
  if (home) {
    let file = path.join(home, JSHINTRC);
    if (fs.existsSync(file)) {
      return readJSHintFile(file);
    }
  }
  return jshintOptions;
}
```
The result is `Option JValue` because the final fall-back returns
`this.jshintOptions`, which may be null.  Messages from a malformed
`package.json` are emitted even though resolution falls through to the
next tier, as in the source.  `fuel` bounds the `extends` recursion of
`readJSHintFile`. -/
def readOptions (env : OptionsEnv) (st : OptionsResolverState) (fuel : Nat)
    (fsPath : String) : Option JValue × List Msg :=
  match configActive env st.configPath with
  | some cp =>
    let r := readJsonFile env cp none
    (some r.1, r.2)
  | none =>
  match legacyConfigActive env st.jshintOptions with
  | some c =>
    let r := readJsonFile env c none
    (some r.1, r.2)
  | none =>
    let pkg : Option JValue × List Msg :=
      if fsPath ≠ "" then
        match locateFile (existsF env) (fsPath.length + 2) fsPath "package.json" with
        | some packageFile =>
          let content := readJsonFile env packageFile none
          match jshintConfigTruthy content.1 with
          | some jc => (some jc, content.2)
          | none => (none, content.2)
        | none => (none, [])
      else (none, [])
    match pkg.1 with
    | some jc => (some jc, pkg.2)
    | none =>
      let proj : Option JValue × List Msg :=
        if fsPath ≠ "" then
          match locateFile (existsF env) (fsPath.length + 2) fsPath ".jshintrc" with
          | some configFile =>
            let r := readJSHintFile env fuel configFile none
            (some r.1, r.2)
          | none => (none, [])
        else (none, [])
      match proj.1 with
      | some v => (some v, pkg.2 ++ proj.2)
      | none =>
        match env.home with
        | some h =>
          if h ≠ "" then
            let file := pathJoin h ".jshintrc"
            if existsF env file then
              let r := readJSHintFile env fuel file none
              (some r.1, pkg.2 ++ r.2)
            else (st.jshintOptions, pkg.2)
          else (st.jshintOptions, pkg.2)
        | none => (st.jshintOptions, pkg.2)

/-- Truthiness of a cached entry, as tested by `if (!result)`: an absent
entry, a stored null and a stored falsy value all count as misses. -/
def optTruthy : Option JValue → Bool
  | some v => jsTruthy v
  | none => false

/--
```
public getOptions(fsPath: string): any {
  let result = this.optionsCache[fsPath];
  if (!result) {
    result = this.readOptions(fsPath);
    this.optionsCache[fsPath] = result;
  }
  return result;
}
```
Returns the value, the messages emitted by this call, and the state after
the call. -/
def getOptions (env : OptionsEnv) (st : OptionsResolverState) (fuel : Nat)
    (fsPath : String) : (Option JValue × List Msg) × OptionsResolverState :=
  match lookupAssoc fsPath st.optionsCache with
  | some r =>
    if optTruthy r then ((r, []), st)
    else
      let c := readOptions env st fuel fsPath
      ((c.1, c.2), { st with optionsCache := insertAssoc fsPath c.1 st.optionsCache })
  | none =>
    let c := readOptions env st fuel fsPath
    ((c.1, c.2), { st with optionsCache := insertAssoc fsPath c.1 st.optionsCache })

end OptionsResolver

/-! ## The file matcher

`minimatch` (an external dependency) is modelled as gitignore-style glob
matching, the interface the specification assigns to it: the pattern and
the path are split on `/`; a literal `**` pattern segment matches any
number (including zero) of path segments; inside a segment `*` matches any
run of characters, `?` one character, and other characters match
literally.  (minimatch's dot-file, brace and negation extras are not
exercised by the resolver's default patterns and are omitted.)  The
backtracking searches are given fuel; `minimatchB` supplies enough for the
worst case. -/

/-- Glob match of one pattern segment against one path segment. -/
def segMatch : Nat → List Char → List Char → Bool
  | 0, _, _ => false
  | _ + 1, [], [] => true
  | fuel + 1, '*' :: ps, cs =>
    segMatch fuel ps cs ||
      (match cs with
        | [] => false
        | _ :: cs' => segMatch fuel ('*' :: ps) cs')
  | fuel + 1, '?' :: ps, _ :: cs => segMatch fuel ps cs
  | fuel + 1, p :: ps, c :: cs => p = c && segMatch fuel ps cs
  | _ + 1, _, _ => false

/-- Glob match of a pattern segment list against a path segment list. -/
def matchSegs : Nat → List String → List String → Bool
  | 0, _, _ => false
  | _ + 1, [], segs => segs.isEmpty
  | fuel + 1, "**" :: ps, segs =>
    matchSegs fuel ps segs ||
      (match segs with
        | [] => false
        | _ :: rest => matchSegs fuel ("**" :: ps) rest)
  | fuel + 1, p :: ps, segs =>
    match segs with
    | [] => false
    | s :: rest =>
      segMatch (p.length + s.length + 1) p.data s.data && matchSegs fuel ps rest

/-- `minimatch(path, pattern)` as used by `FileMatcher.match`. -/
def minimatchB (path pattern : String) : Bool :=
  let ps := slashSegs pattern
  let ss := slashSegs path
  matchSegs (ps.length + ss.length + 1) ps ss

/-- Environment of `FileMatcher`: `env p` is `none` when no ignore file
exists at `p`, and otherwise the pattern list that
`processIgnoreFile p` (the `parse-gitignore` package: one pattern per
line, blank lines and `#` comments dropped) returns for its content. -/
def MatcherEnv : Type := String → Option (List String)

/-- `fs.existsSync` under a `MatcherEnv`. -/
def existsM (env : MatcherEnv) (p : String) : Bool :=
  (env p).isSome

/-- `processIgnoreFile` under a `MatcherEnv` (only ever called on paths
that passed an existence check). -/
def ignorePatterns (env : MatcherEnv) (p : String) : List String :=
  (env p).getD []

/-- State of a `FileMatcher` instance.  The constructor produces
`⟨none, [], []⟩`: its `defaultExcludePatterns` is null, and
`_.some(null, f)` is false, which the empty list reproduces. -/
structure FileMatcherState where
  configPath : Option String
  defaultExcludePatterns : List String
  excludeCache : List (String × Bool)

namespace FileMatcher

/-- `new FileMatcher()`. -/
def init : FileMatcherState := ⟨none, [], []⟩

/--
```
private pickTrueKeys(obj: FileSettings) {
  return _.keys(_.pickBy(obj, (value) => {
    return value === true;
  }));
}
``` -/
def pickTrueKeys (obj : List (String × Bool)) : List String :=
  (obj.filter fun kv => kv.2 = true).map fun kv => kv.1

/--
```
public configure(path: string, exclude?: FileSettings): void {
  this.configPath = path;
  this.excludeCache = {};
  this.defaultExcludePatterns = this.pickTrueKeys(exclude);
}
``` -/
def configure (path : Option String) (exclude : List (String × Bool))
    (_st : FileMatcherState) : FileMatcherState :=
  ⟨path, pickTrueKeys exclude, []⟩

/--
```
public clear(exclude?: FileSettings): void {
  this.excludeCache = {};
}
```
The argument is unused by the body. -/
def clear (_exclude : List (String × Bool)) (st : FileMatcherState) :
    FileMatcherState :=
  { st with excludeCache := [] }

/--
```
private relativeTo(fsPath: string, folder: string): string {
  if (folder && 0 === fsPath.indexOf(folder)) {
    let cuttingPoint = folder.length;
    if (cuttingPoint < fsPath.length && '/' === fsPath.charAt(cuttingPoint)) {
      cuttingPoint += 1;
    }
    return fsPath.substr(cuttingPoint);
  }
  return fsPath;
}
``` -/
def relativeTo (fsPath folder : String) : String :=
  if folder ≠ "" ∧ folder.data.isPrefixOf fsPath.data then
    match fsPath.data.drop folder.data.length with
    | '/' :: tl => ⟨tl⟩
    | rest => ⟨rest⟩
  else fsPath

/--
```
private folderOf(fsPath: string): string {
  let index = fsPath.lastIndexOf('/');
  return index > -1 ? fsPath.substr(0, index) : fsPath;
}
``` -/
def folderOf (fsPath : String) : String :=
  let rev2 := fsPath.data.reverse.dropWhile fun c => c ≠ '/'
  if rev2.isEmpty then fsPath else ⟨fsPath.data.take (rev2.length - 1)⟩

/--
```
private match(excludePatters: string[], path: string, root: string): boolean {
  let relativePath = this.relativeTo(path, root);
  return _.some(excludePatters, (pattern) => {
    return minimatch(relativePath, pattern);
  });
};
```
(The source method is named `match`, a reserved word here.) -/
def matchPats (excludePatterns : List String) (path root : String) : Bool :=
  let relativePath := relativeTo path root
  excludePatterns.any fun pattern => minimatchB relativePath pattern

/-- The guard `this.configPath && fs.existsSync(this.configPath)` of
`excludes`. -/
def matcherConfigActive (env : MatcherEnv) : Option String → Option String
  | some cp => if cp ≠ "" ∧ existsM env cp then some cp else none
  | none => none

/--
```
public excludes(fsPath: string, root: string): boolean {
  if (fsPath) {
    if (this.excludeCache.hasOwnProperty(fsPath)) {
      return this.excludeCache[fsPath];
    }
    let shouldBeExcluded = false;
    if (this.configPath && fs.existsSync(this.configPath)) {
      shouldBeExcluded = this.match(processIgnoreFile(this.configPath), fsPath, root);
    } else {
      let ignoreFile = locateFile(fsPath, JSHINTIGNORE);
      if (ignoreFile) {
        shouldBeExcluded = this.match(processIgnoreFile(ignoreFile), fsPath, this.folderOf(ignoreFile));
      } else {
        shouldBeExcluded = this.match(this.defaultExcludePatterns, fsPath, root);
      }
    }
    this.excludeCache[fsPath] = shouldBeExcluded;
    return shouldBeExcluded;
  }
  return true;
}
``` -/
def excludes (env : MatcherEnv) (st : FileMatcherState) (fsPath root : String) :
    Bool × FileMatcherState :=
  if fsPath ≠ "" then
    match lookupAssoc fsPath st.excludeCache with
    | some b => (b, st)
    | none =>
      let shouldBeExcluded :=
        match matcherConfigActive env st.configPath with
        | some cp => matchPats (ignorePatterns env cp) fsPath root
        | none =>
          match locateFile (existsM env) (fsPath.length + 2) fsPath ".jshintignore" with
          | some ignoreFile =>
            matchPats (ignorePatterns env ignoreFile) fsPath (folderOf ignoreFile)
          | none => matchPats st.defaultExcludePatterns fsPath root
      (shouldBeExcluded,
        { st with excludeCache := insertAssoc fsPath shouldBeExcluded st.excludeCache })
  else (true, st)

end FileMatcher

/-! ## Lemmas about object merging and association lists -/

/-- Induction on the spine of an object field list (the nested values are
not part of the motive, so no mutual induction is needed). -/
def JObj.spineInduction {motive : JObj → Prop} (nil : motive .nil)
    (cons : ∀ k v tl, motive tl → motive (.cons k v tl)) : ∀ o, motive o
  | .nil => nil
  | .cons k v tl => cons k v tl (JObj.spineInduction nil cons tl)

theorem lookupAssoc_insert_self {α : Type} (k : String) (v : α)
    (l : List (String × α)) : lookupAssoc k (insertAssoc k v l) = some v := by
  induction l with
  | nil => simp [insertAssoc, lookupAssoc]
  | cons hd tl ih =>
    obtain ⟨k', v'⟩ := hd
    by_cases h : k' = k
    · simp [insertAssoc, lookupAssoc, h]
    · simp [insertAssoc, lookupAssoc, h, ih]

theorem findO_appendO (k : String) (l r : JObj) :
    findO k (appendO l r) =
      match findO k l with
      | some v => some v
      | none => findO k r := by
  induction l using JObj.spineInduction with
  | nil => simp [appendO, findO]
  | cons k' v tl ih =>
    by_cases h : k' = k
    · simp [appendO, findO, h]
    · simp [appendO, findO, h, ih]

theorem findO_mergeBase (k : String) (bf cf : JObj) :
    findO k (mergeBase bf cf) =
      (findO k bf).map fun v =>
        match findO k cf with
        | some w => mergeVal v w
        | none => v := by
  induction bf using JObj.spineInduction with
  | nil => simp [mergeBase, findO]
  | cons k' v tl ih =>
    by_cases h : k' = k
    · simp [mergeBase, findO, h]
    · simp [mergeBase, findO, h, ih]

theorem findO_filterNotIn_of_none (k : String) (cf bf : JObj)
    (h : findO k bf = none) : findO k (filterNotIn cf bf) = findO k cf := by
  induction cf using JObj.spineInduction with
  | nil => simp [filterNotIn]
  | cons k' v tl ih =>
    by_cases hk : k' = k
    · subst hk
      simp [filterNotIn, findO, h, ih]
    · cases hs : (findO k' bf).isSome <;> simp [filterNotIn, hs, findO, hk, ih]

/-- Property lookup on the result of the lodash merge: a key present in
the destination keeps its (recursively merged) value, a fresh source key
is appended. -/
theorem findO_mergeObj (k : String) (bf cf : JObj) :
    findO k (mergeObj bf cf) =
      match findO k bf with
      | some v =>
        some (match findO k cf with
              | some w => mergeVal v w
              | none => v)
      | none => findO k cf := by
  unfold mergeObj
  rw [findO_appendO, findO_mergeBase]
  cases h : findO k bf with
  | some v => simp
  | none => simp [findO_filterNotIn_of_none k cf bf h]

theorem findO_removeO (k k' : String) (l : JObj) :
    findO k (removeO k' l) = if k' = k then none else findO k l := by
  induction l using JObj.spineInduction with
  | nil => simp [removeO, findO]
  | cons k'' v tl ih =>
    by_cases h1 : k'' = k'
    · subst h1
      by_cases h2 : k'' = k
      · subst h2
        simp [removeO, findO, ih]
      · simp [removeO, findO, h2, ih]
    · by_cases h2 : k'' = k
      · subst h2
        have h3 : ¬ (k' = k'') := fun he => h1 he.symm
        simp [removeO, findO, h1, h3, ih]
      · simp [removeO, findO, h1, h2, ih]

theorem filterNotIn_nil (cf : JObj) : filterNotIn cf .nil = cf := by
  induction cf using JObj.spineInduction with
  | nil => rfl
  | cons k v tl ih => simp [filterNotIn, findO, ih]

theorem mergeObj_nil_left (cf : JObj) : mergeObj .nil cf = cf := by
  unfold mergeObj
  simp [mergeBase, appendO, filterNotIn_nil]

/-! ## Claims -/

/-- C9: for every root argument and every matcher state, `excludes` called
with the empty (falsy) file path returns `true` and leaves the state — in
particular the cache — untouched; the result is the same for every
environment (so no ignore file is consulted) and every state (so neither
the cache nor the default patterns are consulted). -/
theorem C9_excludes_empty_path (env : MatcherEnv) (st : FileMatcherState)
    (root : String) : FileMatcher.excludes env st "" root = (true, st) := by
  simp [FileMatcher.excludes]

/-- C10: `clear()` on either resolver empties the per-path cache and
changes nothing else: the configured explicit path and the legacy options
(resp. the ignore-file path and the default exclude patterns) are
unchanged, and the optional argument is ignored (the result is the same
for every argument). -/
theorem C10_clear_frame (a a' : Option JValue) (ex ex' : List (String × Bool))
    (st : OptionsResolverState) (stF : FileMatcherState) :
    OptionsResolver.clear a st =
      { configPath := st.configPath, jshintOptions := st.jshintOptions,
        optionsCache := [] } ∧
    OptionsResolver.clear a st = OptionsResolver.clear a' st ∧
    FileMatcher.clear ex stF =
      { configPath := stF.configPath,
        defaultExcludePatterns := stF.defaultExcludePatterns,
        excludeCache := [] } ∧
    FileMatcher.clear ex stF = FileMatcher.clear ex' stF :=
  ⟨rfl, rfl, rfl, rfl⟩

/-- C4: whenever an explicit config path is configured (truthy) and exists
on disk, a cache-missing `getOptions` returns exactly the flat
`readJsonFile` parse of that file — no inheritance processing — and this
holds for every environment, in particular whatever discoverable project
config files exist (they are not consulted). -/
theorem C4_explicit_config_flat_read (env : OptionsEnv)
    (st : OptionsResolverState) (fuel : Nat) (p cp : String)
    (hcp : st.configPath = some cp) (hne : cp ≠ "")
    (hex : existsF env cp = true)
    (hmiss : lookupAssoc p st.optionsCache = none) :
    (OptionsResolver.getOptions env st fuel p).1 =
      (some (readJsonFile env cp none).1, (readJsonFile env cp none).2) := by
  simp [OptionsResolver.getOptions, hmiss, OptionsResolver.readOptions,
    OptionsResolver.configActive, hcp, hne, hex]

/-- Witness environment for C4: the explicit config file and a
discoverable project file both exist; the explicit one wins. -/
def envC4 : OptionsEnv :=
  ⟨fun q =>
    if q = "/c.json" then some (.ok (.obj (.cons "a" (.num 1) .nil)))
    else if q = "/w/.jshintrc" then some (.ok (.obj (.cons "b" (.num 2) .nil)))
    else none, none⟩

theorem C4_witness :
    (OptionsResolver.getOptions envC4 ⟨some "/c.json", none, []⟩ 1 "/w/a.js").1 =
      (some (.obj (.cons "a" (.num 1) .nil)), []) := by
  have h := C4_explicit_config_flat_read envC4 ⟨some "/c.json", none, []⟩ 1
    "/w/a.js" "/c.json" rfl (by decide) rfl rfl
  rw [h]
  rfl

/-- Unfolding of `readJSHintFile` at positive fuel. -/
theorem readJSHintFile_succ (env : OptionsEnv) (fuel : Nat) (file : String)
    (ef : Option String) :
    readJSHintFile env (fuel + 1) file ef =
      (match getExtTruthy (readJsonFile env file ef).1 with
        | some ext =>
          let baseFile := pathResolve (pathDirname file) ext
          if existsF env baseFile then
            (removeExt (mergeVal (readJSHintFile env fuel baseFile (some file)).1
                (readJsonFile env file ef).1),
              (readJsonFile env file ef).2 ++
                (readJSHintFile env fuel baseFile (some file)).2)
          else
            (removeExt (readJsonFile env file ef).1,
              (readJsonFile env file ef).2 ++ [Msg.cantFind baseFile file])
        | none => readJsonFile env file ef) := rfl

/-- Does a value carry an `extends` property at all (only objects can)? -/
def hasExtKey : JValue → Bool
  | .obj fs => (findO "extends" fs).isSome
  | _ => false

/-- Does a value carry an `extends` property holding a non-empty string
(the only kind of `extends` the inheritance branch fires on)? -/
def hasStrExtends (v : JValue) : Bool :=
  (getExtTruthy v).isSome

theorem getExtTruthy_removeExt (v : JValue) : getExtTruthy (removeExt v) = none := by
  cases v <;> simp [removeExt, getExtTruthy]
  case obj fs => simp [findO_removeO]

theorem hasExtKey_removeExt (v : JValue) : hasExtKey (removeExt v) = false := by
  cases v <;> simp [removeExt, hasExtKey]
  case obj fs => simp [findO_removeO]

theorem getExtTruthy_eq_none_of_not_strExt (v : JValue)
    (h : getExtTruthy v = none) : hasStrExtends v = false := by
  simp [hasStrExtends, h]

/-- C2 (amended): every configuration produced by the inheritance
processing of `readJSHintFile` — the function behind the discovered
project `.jshintrc` and home `.jshintrc` tiers — is free of a truthy
(non-empty string) `extends` entry, whatever the environment, the fuel and
the file.  (The claim as stated is refuted by `C2_counterexample`: the
flat-read tiers of `getOptions` return parsed content verbatim, `extends`
key included.) -/
theorem C2_inheritance_result_no_truthy_extends (env : OptionsEnv)
    (fuel : Nat) (file : String) (ef : Option String) :
    hasStrExtends (readJSHintFile env fuel file ef).1 = false := by
  cases fuel with
  | zero => rfl
  | succ fuel =>
    show hasStrExtends
      (match getExtTruthy (readJsonFile env file ef).1 with
        | some ext =>
          let baseFile := pathResolve (pathDirname file) ext
          if existsF env baseFile then
            let b := readJSHintFile env fuel baseFile (some file)
            (removeExt (mergeVal b.1 (readJsonFile env file ef).1),
              (readJsonFile env file ef).2 ++ b.2)
          else
            (removeExt (readJsonFile env file ef).1,
              (readJsonFile env file ef).2 ++ [Msg.cantFind baseFile file])
        | none => readJsonFile env file ef).1 = false
    cases hg : getExtTruthy (readJsonFile env file ef).1 with
    | none => simpa using getExtTruthy_eq_none_of_not_strExt _ hg
    | some ext =>
      by_cases hb : existsF env (pathResolve (pathDirname file) ext) = true
      · simp [hb, hasStrExtends, getExtTruthy_removeExt]
      · simp [eq_false_of_ne_true hb, hasStrExtends, getExtTruthy_removeExt]

/-- The environment refuting C2 as stated: an explicitly configured config
file whose content has an `extends` entry. -/
def envC2 : OptionsEnv :=
  ⟨fun q =>
    if q = "/c.json" then some (.ok (.obj (.cons "extends" (.str "x") .nil)))
    else none, none⟩

/-- C2 counterexample: with an explicit config path (flat read),
`getOptions` returns a configuration that still contains the `extends`
key — even a truthy one — refuting the claim that the returned object
never contains an `extends` key. -/
theorem C2_counterexample :
    (OptionsResolver.getOptions envC2 ⟨some "/c.json", none, []⟩ 1 "/f.js").1.1 =
      some (.obj (.cons "extends" (.str "x") .nil)) ∧
    hasStrExtends (.obj (.cons "extends" (.str "x") .nil)) = true :=
  ⟨rfl, rfl⟩

/-- C8: when a config file's `extends` names a non-existent path, the file
resolves to its own fields with the `extends` key removed and exactly one
side-channel report (naming the missing path and the child file); and
whether or not the parent exists, the result carries no `extends` key. -/
theorem C8_extends_nonexistent_parent (env : OptionsEnv) (fuel : Nat)
    (file : String) (ef : Option String) (fs : JObj) (e : String)
    (hfile : env.files file = some (.ok (.obj fs)))
    (hext : findO "extends" fs = some (.str e)) (hne : e ≠ "") :
    (env.files (pathResolve (pathDirname file) e) = none →
      readJSHintFile env (fuel + 1) file ef =
        (.obj (removeO "extends" fs),
          [.cantFind (pathResolve (pathDirname file) e) file])) ∧
    hasExtKey (readJSHintFile env (fuel + 1) file ef).1 = false := by
  have hc : readJsonFile env file ef = (.obj fs, []) := by
    simp [readJsonFile, hfile]
  have hg : getExtTruthy (JValue.obj fs) = some e := by
    simp [getExtTruthy, hext, hne]
  constructor
  · intro hmiss
    have hb : existsF env (pathResolve (pathDirname file) e) = false := by
      simp [existsF, hmiss]
    show (match getExtTruthy (readJsonFile env file ef).1 with
        | some ext =>
          let baseFile := pathResolve (pathDirname file) ext
          if existsF env baseFile then
            let b := readJSHintFile env fuel baseFile (some file)
            (removeExt (mergeVal b.1 (readJsonFile env file ef).1),
              (readJsonFile env file ef).2 ++ b.2)
          else
            (removeExt (readJsonFile env file ef).1,
              (readJsonFile env file ef).2 ++ [Msg.cantFind baseFile file])
        | none => readJsonFile env file ef) = _
    simp [hc, hg, hb, removeExt]
  · show hasExtKey
      (match getExtTruthy (readJsonFile env file ef).1 with
        | some ext =>
          let baseFile := pathResolve (pathDirname file) ext
          if existsF env baseFile then
            let b := readJSHintFile env fuel baseFile (some file)
            (removeExt (mergeVal b.1 (readJsonFile env file ef).1),
              (readJsonFile env file ef).2 ++ b.2)
          else
            (removeExt (readJsonFile env file ef).1,
              (readJsonFile env file ef).2 ++ [Msg.cantFind baseFile file])
        | none => readJsonFile env file ef).1 = false
    by_cases hb : existsF env (pathResolve (pathDirname file) e) = true
    · simp [hc, hg, hb, hasExtKey_removeExt]
    · simp [hc, hg, eq_false_of_ne_true hb, hasExtKey_removeExt]

/-- Witness environment for C8: `/r/child` extends the missing
`/r/gone`. -/
def envC8 : OptionsEnv :=
  ⟨fun q =>
    if q = "/r/child" then
      some (.ok (.obj (.cons "extends" (.str "gone")
        (.cons "a" (.num 1) .nil))))
    else none, none⟩

theorem C8_witness :
    readJSHintFile envC8 2 "/r/child" none =
      (.obj (.cons "a" (.num 1) .nil), [.cantFind "/r/gone" "/r/child"]) ∧
    hasExtKey (readJSHintFile envC8 2 "/r/child" none).1 = false := by
  have h := C8_extends_nonexistent_parent envC8 1 "/r/child" none
    (.cons "extends" (.str "gone") (.cons "a" (.num 1) .nil)) "gone"
    rfl rfl (by decide)
  exact ⟨(h.1 (by rfl)).trans rfl, h.2⟩

/-- C3: a JSON parse failure (after comment stripping) on a config file is
non-fatal and reported exactly once.  First conjunct: `readJsonFile` — the
reader behind every tier (pinned, legacy, `package.json`, project and
home) — turns a parse failure into an empty object plus exactly one
side-channel report naming the failing file and, when present, the child
that pulled it in.  Second conjunct: `getOptions` on a malformed pinned
config returns the empty object (resolution proceeds, nothing is raised —
the model is total) with that single report.  Third conjunct: a parent
pulled in via `extends` that fails to parse contributes an empty object —
leaving exactly the child's own fields — with a single report naming the
parent file and the extending child. -/
theorem C3_parse_failure_reported_once :
    (∀ (env : OptionsEnv) (file : String) (ef : Option String),
      env.files file = some (.error ()) →
      readJsonFile env file ef = (.obj .nil, [.cantLoad file ef])) ∧
    (∀ (env : OptionsEnv) (st : OptionsResolverState) (fuel : Nat) (p cp : String),
      st.configPath = some cp → cp ≠ "" →
      env.files cp = some (.error ()) →
      lookupAssoc p st.optionsCache = none →
      (OptionsResolver.getOptions env st fuel p).1 =
        (some (.obj .nil), [.cantLoad cp none])) ∧
    (∀ (env : OptionsEnv) (fuel : Nat) (file : String) (ef : Option String)
      (fs : JObj) (e : String),
      env.files file = some (.ok (.obj fs)) →
      findO "extends" fs = some (.str e) → e ≠ "" →
      env.files (pathResolve (pathDirname file) e) = some (.error ()) →
      readJSHintFile env (fuel + 2) file ef =
        (.obj (removeO "extends" fs),
          [.cantLoad (pathResolve (pathDirname file) e) (some file)])) := by
  refine ⟨?_, ?_, ?_⟩
  · intro env file ef h
    simp [readJsonFile, h]
  · intro env st fuel p cp hcp hne herr hmiss
    simp [OptionsResolver.getOptions, hmiss, OptionsResolver.readOptions,
      OptionsResolver.configActive, hcp, hne, existsF, herr, readJsonFile]
  · intro env fuel file ef fs e hfile hext hne herr
    have hc : readJsonFile env file ef = (.obj fs, []) := by
      simp [readJsonFile, hfile]
    have hg : getExtTruthy (JValue.obj fs) = some e := by
      simp [getExtTruthy, hext, hne]
    have hb : existsF env (pathResolve (pathDirname file) e) = true := by
      simp [existsF, herr]
    have hinner : readJSHintFile env (fuel + 1)
        (pathResolve (pathDirname file) e) (some file) =
        (.obj .nil, [.cantLoad (pathResolve (pathDirname file) e) (some file)]) := by
      rw [readJSHintFile_succ]
      simp [readJsonFile, herr, getExtTruthy, findO]
    rw [readJSHintFile_succ]
    simp [hc, hg, hb, hinner, removeExt, mergeVal_obj, mergeObj_nil_left]

/-- Witness environment for C3: a malformed pinned file and a child whose
`extends` parent is malformed. -/
def envC3 : OptionsEnv :=
  ⟨fun q =>
    if q = "/bad.json" then some (.error ())
    else if q = "/r/kid" then
      some (.ok (.obj (.cons "extends" (.str "bad2")
        (.cons "k" (.num 7) .nil))))
    else if q = "/r/bad2" then some (.error ())
    else none, none⟩

theorem C3_witness :
    readJsonFile envC3 "/bad.json" none =
      (.obj .nil, [.cantLoad "/bad.json" none]) ∧
    (OptionsResolver.getOptions envC3 ⟨some "/bad.json", none, []⟩ 1 "/f.js").1 =
      (some (.obj .nil), [.cantLoad "/bad.json" none]) ∧
    readJSHintFile envC3 3 "/r/kid" none =
      (.obj (.cons "k" (.num 7) .nil), [.cantLoad "/r/bad2" (some "/r/kid")]) := by
  refine ⟨C3_parse_failure_reported_once.1 envC3 "/bad.json" none rfl,
    C3_parse_failure_reported_once.2.1 envC3 ⟨some "/bad.json", none, []⟩ 1
      "/f.js" "/bad.json" rfl (by decide) rfl rfl, ?_⟩
  have h := C3_parse_failure_reported_once.2.2 envC3 1 "/r/kid" none
    (.cons "extends" (.str "bad2") (.cons "k" (.num 7) .nil)) "bad2"
    rfl rfl (by decide) (by rfl)
  exact h.trans rfl

/-- A `getOptions` call whose cache holds a truthy entry returns it
unchanged, touching neither the filesystem nor the state. -/
theorem getOptions_cache_hit (env : OptionsEnv) (st : OptionsResolverState)
    (fuel : Nat) (p : String) (r : Option JValue)
    (hl : lookupAssoc p st.optionsCache = some r)
    (ht : OptionsResolver.optTruthy r = true) :
    OptionsResolver.getOptions env st fuel p = ((r, []), st) := by
  simp [OptionsResolver.getOptions, hl, ht]

/-- After any `getOptions` call, the cache holds the value just
returned. -/
theorem getOptions_caches_result (env : OptionsEnv) (st : OptionsResolverState)
    (fuel : Nat) (p : String) :
    lookupAssoc p (OptionsResolver.getOptions env st fuel p).2.optionsCache =
      some (OptionsResolver.getOptions env st fuel p).1.1 := by
  cases hl : lookupAssoc p st.optionsCache with
  | some v =>
    by_cases ht : OptionsResolver.optTruthy v = true
    · simp [OptionsResolver.getOptions, hl, ht]
    · simp [OptionsResolver.getOptions, hl, eq_false_of_ne_true ht,
        lookupAssoc_insert_self]
  | none =>
    simp [OptionsResolver.getOptions, hl, lookupAssoc_insert_self]

/-- C5 (amended): (1) whenever the first `getOptions(path)` call returns a
truthy value (e.g. any config object), a second call with no intervening
`configure`/`clear` returns the identical value — with no side-channel
messages and no state change — even under a different environment
(arbitrary changes of the config files on disk) and different fuel;
(2) after `configure`, the next `getOptions` recomputes from the
filesystem (`readOptions`).  (The claim as stated, with no truthiness
proviso, is refuted by `C5_counterexample`: a falsy first result — here
the `null` legacy-options fall-back — is not an effective cache entry, so
the second call re-reads the filesystem and can differ.) -/
theorem C5_cache_stability (env env' : OptionsEnv) (st : OptionsResolverState)
    (fuel fuel' : Nat) (p : String) (cp : Option String) (jo : Option JValue) :
    (OptionsResolver.optTruthy (OptionsResolver.getOptions env st fuel p).1.1 = true →
      OptionsResolver.getOptions env' (OptionsResolver.getOptions env st fuel p).2 fuel' p =
        (((OptionsResolver.getOptions env st fuel p).1.1, []),
          (OptionsResolver.getOptions env st fuel p).2)) ∧
    (OptionsResolver.getOptions env' (OptionsResolver.configure cp jo st) fuel' p).1 =
      OptionsResolver.readOptions env' (OptionsResolver.configure cp jo st) fuel' p := by
  constructor
  · intro htr
    exact getOptions_cache_hit env' _ fuel' p _
      (getOptions_caches_result env st fuel p) htr
  · rfl

/-- Witness state for C5: the cache already holds a truthy entry for
`"p"`. -/
def stC5 : OptionsResolverState :=
  ⟨none, none, [("p", some (.obj (.cons "a" (.num 1) .nil)))]⟩

theorem C5_witness :
    OptionsResolver.getOptions ⟨fun _ => none, none⟩
        (OptionsResolver.getOptions ⟨fun _ => none, none⟩ stC5 1 "p").2 1 "p" =
      (((OptionsResolver.getOptions ⟨fun _ => none, none⟩ stC5 1 "p").1.1, []),
        (OptionsResolver.getOptions ⟨fun _ => none, none⟩ stC5 1 "p").2) ∧
    (OptionsResolver.getOptions ⟨fun _ => none, none⟩
        (OptionsResolver.configure (some "/c") none stC5) 1 "p").1 =
      OptionsResolver.readOptions ⟨fun _ => none, none⟩
        (OptionsResolver.configure (some "/c") none stC5) 1 "p" :=
  ⟨(C5_cache_stability ⟨fun _ => none, none⟩ ⟨fun _ => none, none⟩ stC5 1 1 "p"
      (some "/c") none).1 rfl,
    (C5_cache_stability ⟨fun _ => none, none⟩ ⟨fun _ => none, none⟩ stC5 1 1 "p"
      (some "/c") none).2⟩

/-- Environments for the C5 counterexample: first call sees an empty
filesystem, second call sees a newly created project `.jshintrc`. -/
def envC5a : OptionsEnv := ⟨fun _ => none, none⟩

def envC5b : OptionsEnv :=
  ⟨fun q =>
    if q = "/w/.jshintrc" then some (.ok (.obj (.cons "a" (.num 1) .nil)))
    else none, none⟩

/-- C5 counterexample: on a fresh resolver (no explicit path, no legacy
options) the first `getOptions("/w/a.js")` returns the falsy `null`
fall-back; with no intervening `configure` or `clear`, a second call after
`/w/.jshintrc` appeared on disk returns that file's content — the two
results differ, refuting the claim that consecutive calls return identical
results even if the underlying files change. -/
theorem C5_counterexample :
    (OptionsResolver.getOptions envC5a OptionsResolver.init 3 "/w/a.js").1.1 = none ∧
    (OptionsResolver.getOptions envC5b
        (OptionsResolver.getOptions envC5a OptionsResolver.init 3 "/w/a.js").2
        3 "/w/a.js").1.1 =
      some (.obj (.cons "a" (.num 1) .nil)) ∧
    (none : Option JValue) ≠ some (.obj (.cons "a" (.num 1) .nil)) :=
  ⟨rfl, rfl, by simp⟩

/-- Property lookup on a JSON value (`undefined` on non-objects). -/
def getKey (v : JValue) (k : String) : Option JValue :=
  match v with
  | .obj fs => findO k fs
  | _ => none

/-- `_.isArray`. -/
def isArr : JValue → Bool
  | .arr _ => true
  | _ => false

/-- Is the value a plain object? -/
def isObjV : JValue → Bool
  | .obj _ => true
  | _ => false

/-- When the destination value is neither an array nor an object, the
lodash merge lets the source value win outright. -/
theorem mergeVal_default (v w : JValue) (ha : isArr v = false)
    (ho : isObjV v = false) : mergeVal v w = w := by
  cases v <;> simp [isArr, isObjV] at ha ho ⊢ <;> cases w <;> rfl

/-- C1 (amended): for a chain `A extends B extends C` (each `extends` a
truthy string resolving to the next file, `C` with no `extends` key), the
resolution runs silently and, for every key other than `extends`:
a field holding arrays in all three files resolves to C's elements, then
B's, then A's (grandparent-first concatenation); a field scalar in the
parent B (neither array nor object) is overridden by the child A's value;
but a field holding objects in both B and A resolves to their recursive
lodash merge — the child's entries win and the parent's remaining entries
survive — not to the child's value alone.  (The claim as stated, where an
object field "takes the child's value", is refuted by
`C1_counterexample`.) -/
theorem C1_chain_merge (env : OptionsEnv) (n : Nat) (pA pB pC : String)
    (fA fB fC : JObj) (eA eB : String)
    (hA : env.files pA = some (.ok (.obj fA)))
    (hB : env.files pB = some (.ok (.obj fB)))
    (hC : env.files pC = some (.ok (.obj fC)))
    (hextA : findO "extends" fA = some (.str eA)) (hneA : eA ≠ "")
    (hresA : pathResolve (pathDirname pA) eA = pB)
    (hextB : findO "extends" fB = some (.str eB)) (hneB : eB ≠ "")
    (hresB : pathResolve (pathDirname pB) eB = pC)
    (hextC : findO "extends" fC = none) :
    (readJSHintFile env (n + 1 + 1 + 1) pA none).2 = [] ∧
    (∀ (k : String) (as bs cs : JArr), "extends" ≠ k →
      findO k fA = some (.arr as) → findO k fB = some (.arr bs) →
      findO k fC = some (.arr cs) →
      getKey (readJSHintFile env (n + 1 + 1 + 1) pA none).1 k =
        some (.arr (appendA (appendA cs bs) as))) ∧
    (∀ (k : String) (v w : JValue), "extends" ≠ k →
      findO k fC = none → findO k fB = some v → findO k fA = some w →
      isArr v = false → isObjV v = false →
      getKey (readJSHintFile env (n + 1 + 1 + 1) pA none).1 k = some w) ∧
    (∀ (k : String) (g h : JObj), "extends" ≠ k →
      findO k fC = none → findO k fB = some (.obj g) → findO k fA = some (.obj h) →
      getKey (readJSHintFile env (n + 1 + 1 + 1) pA none).1 k =
        some (.obj (mergeObj g h))) := by
  have hCcall : readJSHintFile env (n + 1) pC (some pB) = (.obj fC, []) := by
    rw [readJSHintFile_succ]
    simp [readJsonFile, hC, getExtTruthy, hextC]
  have hBcall : readJSHintFile env (n + 1 + 1) pB (some pA) =
      (removeExt (mergeVal (.obj fC) (.obj fB)), []) := by
    rw [readJSHintFile_succ]
    simp [readJsonFile, hB, getExtTruthy, hextB, hneB, hresB, existsF, hC, hCcall]
  have hAcall : readJSHintFile env (n + 1 + 1 + 1) pA none =
      (removeExt (mergeVal (removeExt (mergeVal (.obj fC) (.obj fB))) (.obj fA)),
        []) := by
    rw [readJSHintFile_succ]
    simp [readJsonFile, hA, getExtTruthy, hextA, hneA, hresA, existsF, hB, hBcall]
  refine ⟨by rw [hAcall], ?_, ?_, ?_⟩
  · intro k as bs cs hk h1 h2 h3
    rw [hAcall]
    simp [getKey, mergeVal_obj, removeExt, findO_removeO, hk, findO_mergeObj,
      h1, h2, h3, mergeVal_arr]
  · intro k v w hk h1 h2 h3 ha ho
    rw [hAcall]
    simp [getKey, mergeVal_obj, removeExt, findO_removeO, hk, findO_mergeObj,
      h1, h2, h3, mergeVal_default v w ha ho]
  · intro k g h hk h1 h2 h3
    rw [hAcall]
    simp [getKey, mergeVal_obj, removeExt, findO_removeO, hk, findO_mergeObj,
      h1, h2, h3]

/-- Witness chain for C1: `/r/a extends b`, `/r/b extends c`; `ks` is an
array everywhere, `sc` a scalar in `b` and `a`, `ob` an object in `b` and
`a`. -/
def envC1w : OptionsEnv :=
  ⟨fun p =>
    if p = "/r/a" then
      some (.ok (.obj (.cons "extends" (.str "b")
        (.cons "ks" (.arr (.cons (.num 3) .nil))
        (.cons "sc" (.str "A")
        (.cons "ob" (.obj (.cons "x" (.num 3) .nil)) .nil))))))
    else if p = "/r/b" then
      some (.ok (.obj (.cons "extends" (.str "c")
        (.cons "ks" (.arr (.cons (.num 2) .nil))
        (.cons "sc" (.str "B")
        (.cons "ob" (.obj (.cons "x" (.num 1) (.cons "y" (.num 2) .nil)))
          .nil))))))
    else if p = "/r/c" then
      some (.ok (.obj (.cons "ks" (.arr (.cons (.num 1) .nil)) .nil)))
    else none, none⟩

theorem C1_witness :
    getKey (readJSHintFile envC1w (0 + 1 + 1 + 1) "/r/a" none).1 "ks" =
      some (.arr (.cons (.num 1) (.cons (.num 2) (.cons (.num 3) .nil)))) ∧
    getKey (readJSHintFile envC1w (0 + 1 + 1 + 1) "/r/a" none).1 "sc" =
      some (.str "A") ∧
    getKey (readJSHintFile envC1w (0 + 1 + 1 + 1) "/r/a" none).1 "ob" =
      some (.obj (.cons "x" (.num 3) (.cons "y" (.num 2) .nil))) := by
  have h := C1_chain_merge envC1w 0 "/r/a" "/r/b" "/r/c"
    (.cons "extends" (.str "b") (.cons "ks" (.arr (.cons (.num 3) .nil))
      (.cons "sc" (.str "A") (.cons "ob" (.obj (.cons "x" (.num 3) .nil)) .nil))))
    (.cons "extends" (.str "c") (.cons "ks" (.arr (.cons (.num 2) .nil))
      (.cons "sc" (.str "B")
        (.cons "ob" (.obj (.cons "x" (.num 1) (.cons "y" (.num 2) .nil))) .nil))))
    (.cons "ks" (.arr (.cons (.num 1) .nil)) .nil)
    "b" "c" rfl rfl rfl rfl (by decide) (by rfl) rfl (by decide) (by rfl) rfl
  refine ⟨(h.2.1 "ks" (.cons (.num 3) .nil) (.cons (.num 2) .nil)
      (.cons (.num 1) .nil) (by decide) rfl rfl rfl).trans rfl,
    (h.2.2.1 "sc" (.str "B") (.str "A") (by decide) rfl rfl rfl rfl rfl).trans rfl,
    (h.2.2.2 "ob" (.cons "x" (.num 1) (.cons "y" (.num 2) .nil))
      (.cons "x" (.num 3) .nil) (by decide) rfl rfl rfl).trans rfl⟩

/-- Counterexample chain for C1: the object field `o` is
`{x:1, y:2}` in the parent and `{x:3}` in the child. -/
def envC1ce : OptionsEnv :=
  ⟨fun p =>
    if p = "/r/a" then
      some (.ok (.obj (.cons "extends" (.str "b")
        (.cons "o" (.obj (.cons "x" (.num 3) .nil)) .nil))))
    else if p = "/r/b" then
      some (.ok (.obj (.cons "extends" (.str "c")
        (.cons "o" (.obj (.cons "x" (.num 1) (.cons "y" (.num 2) .nil)))
          .nil))))
    else if p = "/r/c" then some (.ok (.obj .nil))
    else none, none⟩

/-- C1 counterexample: in the chain of `envC1ce` the claim says the
resolved `o` equals the child's value `{x:3}`, which has no `y` entry; the
code resolves `o` with `y ↦ 2` (the parent's entry survives the deep
merge), so the resolved field is not the child's value. -/
theorem C1_counterexample :
    (match getKey (readJSHintFile envC1ce 3 "/r/a" none).1 "o" with
      | some (.obj g) => findO "y" g
      | _ => none) = some (.num 2) ∧
    findO "y" (.cons "x" (.num 3) .nil) = none ∧
    (some (.num 2) : Option JValue) ≠ none :=
  ⟨rfl, rfl, by simp⟩

theorem scanStrip_nil (fuel : Nat) : scanStrip fuel [] = [] := by
  cases fuel <;> rfl

/-- C6 (amended): comment stripping behaves as specified on the given
examples — `{"a": "http://x"}` is returned unchanged (the `//` inside the
string is not taken for a comment) and stripping `"// c\n{"a":1}"` yields
`"\n{"a":1}"`, preserving the line terminator — and both outputs are fixed
points of stripping; moreover any input consisting of a single well-formed
double-quoted string literal (the body scan consumes the entire remainder)
is returned unchanged, whatever `/*`, `*/` or `//` sequences it contains.
(Unrestricted idempotence, as stated in the claim, is refuted by
`C6_counterexample`: an unterminated string literal can hide a block
comment whose removal exposes new token boundaries to a second pass.) -/
theorem C6_strip_examples :
    stripComments "\x7b\"a\": \"http://x\"\x7d" = "\x7b\"a\": \"http://x\"\x7d" ∧
    stripComments "// c\n\x7b\"a\":1\x7d" = "\n\x7b\"a\":1\x7d" ∧
    stripComments (stripComments "// c\n\x7b\"a\":1\x7d") =
      stripComments "// c\n\x7b\"a\":1\x7d" ∧
    (∀ rest : List Char, dqSpan rest = some (rest, []) →
      stripComments ⟨'"' :: rest⟩ = ⟨'"' :: rest⟩) := by
  refine ⟨by decide, by decide, by decide, ?_⟩
  intro rest h
  have hd : (⟨'"' :: rest⟩ : String).data = '"' :: rest := rfl
  simp [stripComments, hd, scanStrip, h, scanStrip_nil]

theorem C6_witness :
    stripComments "\"a/*b*///c\"" = "\"a/*b*///c\"" :=
  C6_strip_examples.2.2.2 "a/*b*///c\"".data rfl

/-- C6 counterexample: stripping is not idempotent.  On the input made of
a double quote, then `A/*\`, a real newline, then `*/"B//C"`, the first
pass fails to match the leading string literal (the backslash directly
before the newline cannot be consumed by the string alternative, whose
escape `\\.` does not match line terminators), removes the block comment
between `/*` and `*/`, and keeps the later string literal `"B//C"`,
producing `"A"B//C"`; a second pass now matches `"A"` as a string and
strips `//C"` as a line comment, producing `"A"B`. -/
theorem C6_counterexample :
    stripComments (stripComments "\"A/*\\\n*/\"B//C\"") ≠
      stripComments "\"A/*\\\n*/\"B//C\"" := by
  decide

/-- C7: for a non-empty, not-yet-cached path, when no explicit ignore file
is configured (or it does not exist): if the upward search finds a
nearest-ancestor ignore file, `excludes` matches the path against that
file's patterns relative to the ignore file's own containing directory —
the `root` argument plays no role (it is universally quantified and absent
from the conclusion); otherwise it matches the default pattern set
(installed by `configure` as exactly the keys of the exclude map whose
value is exactly `true`) relative to `root`.  The final two conjuncts are
the concrete default-pattern example: with exclude map
`{"build/**": true, "src/**": false}` and root `/p`, the path
`/p/build/out.js` is excluded and `/p/src/out.js` is not. -/
theorem C7_excludes_pattern_sources (env : MatcherEnv) (st : FileMatcherState)
    (fsPath root : String) (hne : fsPath ≠ "")
    (hmiss : lookupAssoc fsPath st.excludeCache = none)
    (hnocfg : FileMatcher.matcherConfigActive env st.configPath = none) :
    (∀ ig : String,
      locateFile (existsM env) (fsPath.length + 2) fsPath ".jshintignore" =
        some ig →
      (FileMatcher.excludes env st fsPath root).1 =
        FileMatcher.matchPats (ignorePatterns env ig) fsPath
          (FileMatcher.folderOf ig)) ∧
    (locateFile (existsM env) (fsPath.length + 2) fsPath ".jshintignore" =
        none →
      (FileMatcher.excludes env st fsPath root).1 =
        FileMatcher.matchPats st.defaultExcludePatterns fsPath root) ∧
    (FileMatcher.excludes (fun _ => none)
        (FileMatcher.configure none [("build/**", true), ("src/**", false)]
          FileMatcher.init)
        "/p/build/out.js" "/p").1 = true ∧
    (FileMatcher.excludes (fun _ => none)
        (FileMatcher.configure none [("build/**", true), ("src/**", false)]
          FileMatcher.init)
        "/p/src/out.js" "/p").1 = false := by
  refine ⟨?_, ?_, by decide, by decide⟩
  · intro ig hig
    simp [FileMatcher.excludes, hne, hmiss, hnocfg, hig]
  · intro hnone
    simp [FileMatcher.excludes, hne, hmiss, hnocfg, hnone]

/-- Witness environment for C7: an ignore file two directories above the
linted file. -/
def envC7 : MatcherEnv :=
  fun q => if q = "/q/sub/.jshintignore" then some ["deep/*.js"] else none

theorem C7_witness :
    (FileMatcher.excludes envC7 FileMatcher.init "/q/sub/deep/f.min.js" "/q").1 =
      true := by
  have h := C7_excludes_pattern_sources envC7 FileMatcher.init
    "/q/sub/deep/f.min.js" "/q" (by decide) rfl rfl
  exact (h.1 "/q/sub/.jshintignore" (by rfl)).trans rfl
